import Mathlib

/-!
# Script invoker life cycle (xbmc/interfaces/generic)

A shallow embedding of `ILanguageInvoker.h`, `ILanguageInvoker.cpp` and
`LanguageInvokerThread.cpp`:

* `InvokerState`, `ILanguageInvoker` : the invocation state machine;
* `ICleanupParams` : the cleanup scheduler (`std::map<int, time_t>` is a list of
  key/expiry pairs kept in strictly ascending key order);
* `CLanguageInvokerThread` : the reusable worker thread.  Calls into collaborators
  (the wrapped invoker, the scheduler, `CThread`, the condition variable, the log)
  are recorded in a ghost `trace` so that "was called with these arguments" can be
  stated.  The virtual calls whose bodies are elsewhere (`m_invoker->Execute`,
  `m_invoker->Stop`, `GetCleanupArgs`, the scheduler's `load`) are parameters.
  `Process` is a loop bounded by fuel; while the worker thread sits in
  `m_condition.wait`, a list of calls made by other threads is applied one by one.
  The destructor and `CleanupAtExit` (a polling loop on the wall clock) are not
  embedded.
-/

namespace Xbmc

/-! ## ILanguageInvoker.h : InvokerState -/

/-- The C enum `InvokerState`, in declaration order. -/
inductive InvokerState
  | InvokerStateUninitialized
  | InvokerStateInitialized
  | InvokerStateRunning
  | InvokerStateStopping
  | InvokerStateScriptDone
  | InvokerStateExecutionDone
  | InvokerStateFailed
  deriving DecidableEq, Repr

open InvokerState

/-- The integer value of an enumerator (C numbers them from 0). -/
def InvokerState.val : InvokerState → Nat
  | InvokerStateUninitialized => 0
  | InvokerStateInitialized => 1
  | InvokerStateRunning => 2
  | InvokerStateStopping => 3
  | InvokerStateScriptDone => 4
  | InvokerStateExecutionDone => 5
  | InvokerStateFailed => 6

/-- An `ADDON::AddonPtr`: a shared pointer, `none` when null. -/
abbrev AddonPtr := Option Nat

/-- The data members of `ILanguageInvoker` (the handler is a raw pointer, kept
as "is it non-null"). -/
structure ILanguageInvoker where
  m_id : Int
  m_state : InvokerState
  m_addon : AddonPtr
  hasHandler : Bool
  /-- State of the concrete subclass (the interpreter), not interpreted here. -/
  impl : Nat
  deriving DecidableEq, Repr

namespace ILanguageInvoker

/-- Constructor: `m_id(-1), m_state(InvokerStateUninitialized)`. -/
def new (hasHandler : Bool) : ILanguageInvoker :=
  { m_id := -1, m_state := InvokerStateUninitialized, m_addon := none,
    hasHandler := hasHandler, impl := 0 }

/-- `InvokerState GetState() const { return m_state; }` -/
def GetState (i : ILanguageInvoker) : InvokerState := i.m_state

/-- `void Reset() { m_state = InvokerStateUninitialized; }` -/
def Reset (i : ILanguageInvoker) : ILanguageInvoker :=
  { i with m_state := InvokerStateUninitialized }

/-- `void SetId(int id) { m_id = id; }` -/
def SetId (i : ILanguageInvoker) (id : Int) : ILanguageInvoker := { i with m_id := id }

/-- `void SetAddon(const ADDON::AddonPtr &addon) { m_addon = addon; }` -/
def SetAddon (i : ILanguageInvoker) (addon : AddonPtr) : ILanguageInvoker :=
  { i with m_addon := addon }

/-- `setState`: `if (state <= m_state) return; m_state = state;` -/
def setState (i : ILanguageInvoker) (state : InvokerState) : ILanguageInvoker :=
  if state.val ≤ i.m_state.val then i else { i with m_state := state }

/-- `IsActive`: `GetState() > Uninitialized && GetState() < ScriptDone`. -/
def IsActive (i : ILanguageInvoker) : Bool :=
  decide (InvokerStateUninitialized.val < i.GetState.val) &&
    decide (i.GetState.val < InvokerStateScriptDone.val)

/-- `IsRunning`: `GetState() == InvokerStateRunning`. -/
def IsRunning (i : ILanguageInvoker) : Bool := decide (i.GetState = InvokerStateRunning)

/-- `IsStopping`: `GetState() == InvokerStateStopping`. -/
def IsStopping (i : ILanguageInvoker) : Bool := decide (i.GetState = InvokerStateStopping)

/-- The states observed along a sequence of `setState` calls: the state before
the first call, then the state after each call. -/
def observed (i : ILanguageInvoker) : List InvokerState → List InvokerState
  | [] => [i.GetState]
  | n :: ns => i.GetState :: observed (i.setState n) ns

/-- The invoker after a sequence of `setState` calls. -/
def setStates (i : ILanguageInvoker) (ns : List InvokerState) : ILanguageInvoker :=
  ns.foldl setState i

end ILanguageInvoker

/-! ## ILanguageInvoker.h / .cpp : ICleanupParams -/

/-- A `std::map<int, time_t>`: key/expiry pairs. -/
abbrev TimeoutMap := List (Int × Int)

/-- The representation invariant of `std::map`: keys strictly ascending (so
iteration is in key order and no key occurs twice). -/
def TimeoutMap.WF (m : TimeoutMap) : Prop := (m.map Prod.fst).Pairwise (fun a b => a < b)

instance (m : TimeoutMap) : Decidable m.WF :=
  inferInstanceAs (Decidable ((m.map Prod.fst).Pairwise (fun a b => a < b)))

/-- `std::map::erase(key)`: drops the element with that key, if there is one. -/
def TimeoutMap.erase (m : TimeoutMap) (key : Int) : TimeoutMap :=
  m.filter (fun it => it.1 ≠ key)

/-- `std::map::empty()`. -/
def TimeoutMap.empty (m : TimeoutMap) : Bool := m.isEmpty

/-- The expiry stored under a key, if any. -/
def TimeoutMap.find (m : TimeoutMap) (key : Int) : Option Int :=
  (m.find? (fun it => it.1 = key)).map Prod.snd

/-- The data members of `ICleanupParams`.  `m_flags` is a `std::atomic<int>` that
only ever holds a value in `0..3`. -/
structure ICleanupParams where
  m_flags : Nat
  m_cleanup : Bool
  m_cleanup_timeouts : TimeoutMap
  deriving DecidableEq, Repr

namespace ICleanupParams

/-- `update_flags`:
`m_flags = (m_cleanup_timeouts.empty() ? 0 : 2) | (m_cleanup ? 1 : 0);` -/
def update_flags (p : ICleanupParams) : ICleanupParams :=
  { p with m_flags := (if p.m_cleanup_timeouts.empty then 0 else 2) ||| (if p.m_cleanup then 1 else 0) }

/-- `NeedCleanup`: `return (m_flags & (atexit ? 3 : 2)) != 0;` -/
def NeedCleanup (p : ICleanupParams) (atexit : Bool) : Bool :=
  (p.m_flags &&& (if atexit then 3 else 2)) != 0

/-- `Load`: clear the immediate flag and the table, run the subclass's pure
virtual `load(data)` (here the parameter `load`), recompute the flags and
return `m_flags != 0`. -/
def Load {δ : Type} (load : δ → ICleanupParams → ICleanupParams) (p : ICleanupParams)
    (data : δ) : Bool × ICleanupParams :=
  let p1 := { p with m_cleanup := false }
  let p2 := { p1 with m_cleanup_timeouts := [] }
  let p3 := load data p2
  let p4 := p3.update_flags
  (p4.m_flags != 0, p4)

/-- The first loop of `GetCleanupIDs`:
`for (auto& it : m_cleanup_timeouts) if (it.second <= cur) ids.push_back(it.first);` -/
def collectDue (cur : Int) : TimeoutMap → List Int → List Int
  | [], ids => ids
  | it :: rest, ids => collectDue cur rest (if it.2 ≤ cur then ids ++ [it.1] else ids)

/-- The second loop of `GetCleanupIDs`:
`for (auto& id : ids) m_cleanup_timeouts.erase(id);` -/
def eraseAll : List Int → TimeoutMap → TimeoutMap
  | [], m => m
  | id :: rest, m => eraseAll rest (m.erase id)

/-- `GetCleanupIDs(cur, ids)`: the result, the output list after the call and
the scheduler after the call. -/
def GetCleanupIDs (p : ICleanupParams) (cur : Int) (ids : List Int) :
    Bool × List Int × ICleanupParams :=
  let ids1 := collectDue cur p.m_cleanup_timeouts ids
  if ids1.isEmpty then (false, ids1, p)
  else
    let p1 := { p with m_cleanup_timeouts := eraseAll ids1 p.m_cleanup_timeouts }
    (true, ids1, p1.update_flags)

/-- The flags word is up to date: bit 1 says the table is non-empty, bit 0 is
the immediate flag. -/
def FlagsFresh (p : ICleanupParams) : Prop :=
  p.m_flags = ((if p.m_cleanup_timeouts = [] then 0 else 2) ||| (if p.m_cleanup then 1 else 0))

/-- The scheduler after a sequence of `GetCleanupIDs(cur, ids)` calls. -/
def afterCalls (p : ICleanupParams) : List (Int × List Int) → ICleanupParams
  | [] => p
  | c :: cs => afterCalls (p.GetCleanupIDs c.1 c.2).2.2 cs

end ICleanupParams

/-! ## LanguageInvokerThread.cpp : CLanguageInvokerThread -/

/-- Calls that leave the worker object, in the order they are made. -/
inductive Event
  /-- `CThread::Create()` -/
  | Create
  /-- `m_condition.notify_one()` -/
  | notify_one
  /-- `m_invoker->Execute(script, arguments, cleanup)`; the flag says whether
  `&m_cleanup_params` was passed as third argument. -/
  | Execute (script : String) (arguments : List String) (cleanup : Bool)
  /-- `m_cleanup_params->GetCleanupIDs(cur, ids)` -/
  | GetCleanupIDs (cur : Int)
  /-- `m_invoker->Stop(abort)` -/
  | Stop (abort : Bool)
  /-- `CThread::StopThread(wait)` -/
  | StopThread (wait : Bool)
  /-- `CLog::Log(...)` -/
  | Log
  /-- `m_invocationHandler->OnExecutionEnded(this)` of the wrapped invoker -/
  | OnExecutionEnded
  /-- `m_invocationManager->OnExecutionDone(id)` -/
  | OnExecutionDone (id : Int)
  deriving DecidableEq, Repr

/-- The virtual calls whose bodies live outside these files.

* `Execute inv script arguments cleanup` is `m_invoker->Execute(...)`: `cleanup` is
  `none` for a null third argument and `some slot` for `&m_cleanup_params` with
  the slot's current content; the result is the invoker afterwards and the slot's
  content afterwards (ignored when no slot was passed).
* `Stop inv abort` is `m_invoker->Stop(abort)`.
* `GetCleanupArgs p addon args ids` is the pure virtual
  `ICleanupParams::GetCleanupArgs`; `ids = none` is the null pointer. -/
structure Collaborators where
  Execute : ILanguageInvoker → String → List String → Option (Option ICleanupParams) →
    ILanguageInvoker × Option ICleanupParams
  Stop : ILanguageInvoker → Bool → Bool × ILanguageInvoker
  GetCleanupArgs : ICleanupParams → AddonPtr → List String → Option (List Int) → List String

/-- The data members of `CLanguageInvokerThread` that the functions below read
or write.  `m_id` and `m_addon` come from the base `ILanguageInvoker`, `m_bStop`
from the base `CThread`; `running` is what `CThread::IsRunning()` returns;
`trace` is ghost state. -/
structure CLanguageInvokerThread where
  m_id : Int
  m_addon : AddonPtr
  m_invoker : Option ILanguageInvoker
  m_script : String
  m_args : List String
  m_restart : Bool
  m_reusable : Bool
  m_cleanup_params : Option ICleanupParams
  m_cleanup_ids : List Int
  m_last_check : Int
  m_bStop : Bool
  running : Bool
  trace : List Event
  deriving DecidableEq, Repr

namespace CLanguageInvokerThread

/-- Append an event to the ghost trace. -/
def emit (w : CLanguageInvokerThread) (e : Event) : CLanguageInvokerThread :=
  { w with trace := w.trace ++ [e] }

/-- Modelled from the spec: `CThread::IsRunning()` (CThread is not among the
sources), "an OS thread is already alive". -/
def IsRunning (w : CLanguageInvokerThread) : Bool := w.running

/-- Modelled from the spec: `CThread::Create()` (CThread is not among the
sources), "spawns the OS thread"; the new thread is alive from then on. -/
def Create (w : CLanguageInvokerThread) : CLanguageInvokerThread :=
  { w.emit Event.Create with running := true }

/-- Modelled from the spec: `CThread::StopThread(wait)` (CThread is not among the
sources), "requests the underlying thread to join, optionally blocking". -/
def StopThread (w : CLanguageInvokerThread) (wait : Bool) : CLanguageInvokerThread :=
  w.emit (Event.StopThread wait)

/-- `GetState`: `InvokerStateFailed` without an invoker, else the invoker's state. -/
def GetState (w : CLanguageInvokerThread) : InvokerState :=
  match w.m_invoker with
  | none => InvokerStateFailed
  | some inv => inv.GetState

/-- `Release`: `m_bStop = true; m_condition.notify_one();` -/
def Release (w : CLanguageInvokerThread) : CLanguageInvokerThread :=
  ({ w with m_bStop := true }).emit Event.notify_one

/-- `execute(script, arguments, cleanup)`; the third argument is not used. -/
def execute (w : CLanguageInvokerThread) (script : String) (arguments : List String) :
    Bool × CLanguageInvokerThread :=
  if w.m_invoker.isNone || script.isEmpty then (false, w)
  else
    let w1 := { w with m_script := script }
    let w2 := { w1 with m_args := arguments }
    if w2.IsRunning then
      let w3 := { w2 with m_restart := true }
      (true, w3.emit Event.notify_one)
    else
      (true, w2.Create)

/-- `stop(wait)`. -/
def stop (env : Collaborators) (w : CLanguageInvokerThread) (wait : Bool) :
    Bool × CLanguageInvokerThread :=
  match w.m_invoker with
  | none => (false, w)
  | some inv =>
    if !w.IsRunning then (false, w)
    else
      let w1 := w.Release
      if inv.GetState.val < InvokerStateExecutionDone.val then
        let r := env.Stop inv wait
        let w2 := { w1.emit (Event.Stop wait) with m_invoker := some r.2 }
        (r.1, w2.StopThread wait)
      else
        (true, w1.StopThread wait)

/-- `OnStartup`: hand the worker's id and (if set) addon to the invoker. -/
def OnStartup (w : CLanguageInvokerThread) : CLanguageInvokerThread :=
  match w.m_invoker with
  | none => w
  | some inv =>
    let inv1 := inv.SetId w.m_id
    let inv2 := if w.m_addon.isSome then inv1.SetAddon w.m_addon else inv1
    { w with m_invoker := some inv2 }

/-- `OnExit` (and, with the same body, `OnException`): the invoker's
`onExecutionDone()` / `onExecutionFailed()` notifies its handler if it has one,
then the manager's `OnExecutionDone(GetId())`. -/
def OnExit (w : CLanguageInvokerThread) : CLanguageInvokerThread :=
  match w.m_invoker with
  | none => w
  | some inv =>
    let w1 := if inv.hasHandler then w.emit Event.OnExecutionEnded else w
    w1.emit (Event.OnExecutionDone w.m_id)

/-- `GetCleanupIds(ids)`, with the value returned by `time(NULL)` as the
argument `cur`: the result, the output list afterwards, the worker afterwards. -/
def GetCleanupIds (w : CLanguageInvokerThread) (cur : Int) (ids : List Int) :
    Bool × List Int × CLanguageInvokerThread :=
  match w.m_cleanup_params with
  | none => (false, ids, w)
  | some p =>
    let old := w.m_last_check
    let w1 := { w with m_last_check := cur }
    if cur = old then (false, ids, w1)
    else
      let r := p.GetCleanupIDs cur ids
      let w2 := { w1.emit (Event.GetCleanupIDs cur) with m_cleanup_params := some r.2.2 }
      (r.1, r.2.1, w2)

/-- `Cleanup(ids)`: the guard, then the log line, `m_invoker->Reset()`,
`m_cleanup_ids = ids`, `m_restart = true` and the notification. -/
def Cleanup (w : CLanguageInvokerThread) (ids : List Int) : CLanguageInvokerThread :=
  if !w.m_reusable || w.m_invoker.isNone || w.m_cleanup_params.isNone || !w.IsRunning ||
      ids.isEmpty then w
  else
    let w1 := w.emit Event.Log
    let w2 := { w1 with m_invoker := w1.m_invoker.map ILanguageInvoker.Reset }
    let w3 := { w2 with m_cleanup_ids := ids }
    let w4 := { w3 with m_restart := true }
    w4.emit Event.notify_one

/-- What another thread may call on the worker while its own thread runs. -/
inductive Op
  | execute (script : String) (arguments : List String)
  | Cleanup (ids : List Int)
  | Release
  | GetCleanupIds (cur : Int) (ids : List Int)
  | stop (wait : Bool)
  | OnStartup
  | OnExit
  deriving DecidableEq, Repr

/-- The worker after one such call. -/
def Op.apply (env : Collaborators) : Op → CLanguageInvokerThread → CLanguageInvokerThread
  | Op.execute script arguments, w => (w.execute script arguments).2
  | Op.Cleanup ids, w => w.Cleanup ids
  | Op.Release, w => w.Release
  | Op.GetCleanupIds cur ids, w => (w.GetCleanupIds cur ids).2.2
  | Op.stop wait, w => (w.stop env wait).2
  | Op.OnStartup, w => w.OnStartup
  | Op.OnExit, w => w.OnExit

/-! ### Process -/

/-- The first half of the body of the `do` loop of `Process`:
`m_restart = false;` and one `m_invoker->Execute`, with the plain arguments when
`m_cleanup_ids` is empty and with `GetCleanupArgs(m_addon, m_args, &m_cleanup_ids)`
otherwise, after which `m_cleanup_ids` is cleared.  `none` is a null dereference. -/
def Process_execute (env : Collaborators) (w : CLanguageInvokerThread) :
    Option CLanguageInvokerThread :=
  match w.m_invoker with
  | none => none
  | some inv =>
    let w1 := { w with m_restart := false }
    if w1.m_cleanup_ids.isEmpty then
      let r := env.Execute inv w1.m_script w1.m_args (some w1.m_cleanup_params)
      let w2 := w1.emit (Event.Execute w1.m_script w1.m_args true)
      some { w2 with m_invoker := some r.1, m_cleanup_params := r.2 }
    else
      match w1.m_cleanup_params with
      | none => none
      | some p =>
        let arguments := env.GetCleanupArgs p w1.m_addon w1.m_args (some w1.m_cleanup_ids)
        let r := env.Execute inv w1.m_script arguments none
        let w2 := w1.emit (Event.Execute w1.m_script arguments false)
        some { w2 with m_invoker := some r.1, m_cleanup_ids := [] }

/-- `if (m_invoker->GetState() != InvokerStateScriptDone) m_reusable = false;`
(`none` is a null dereference). -/
def Process_demote (w : CLanguageInvokerThread) : Option CLanguageInvokerThread :=
  match w.m_invoker with
  | none => none
  | some inv =>
    if inv.GetState ≠ InvokerStateScriptDone then some { w with m_reusable := false } else some w

/-- The predicate of the end-of-run wait: `m_bStop || m_restart || !m_reusable`. -/
def waitPredicate (w : CLanguageInvokerThread) : Bool :=
  w.m_bStop || w.m_restart || !w.m_reusable

/-- The loop condition: `m_reusable && !m_bStop`. -/
def loopCondition (w : CLanguageInvokerThread) : Bool :=
  w.m_reusable && !w.m_bStop

/-- How `m_condition.wait(lock, predicate)` ends. -/
inductive WaitResult
  /-- the predicate held; these calls of other threads are still to come -/
  | woken (w : CLanguageInvokerThread) (rest : List Op)
  /-- the predicate never held: the thread stays blocked -/
  | blocked (w : CLanguageInvokerThread)
  deriving DecidableEq, Repr

/-- `m_condition.wait(lckdl, predicate)`: returns at once when the predicate
holds, otherwise the calls of other threads happen one by one until it does. -/
def wait (env : Collaborators) : CLanguageInvokerThread → List Op → WaitResult
  | w, [] => if w.waitPredicate then WaitResult.woken w [] else WaitResult.blocked w
  | w, op :: rest =>
    if w.waitPredicate then WaitResult.woken w (op :: rest) else wait env (op.apply env w) rest

/-- The statement after the loop: one more `Execute` with
`GetCleanupArgs(m_addon, m_args, nullptr)` when the thread is still reusable and
the scheduler reports `NeedCleanup(true)`. -/
def Process_final (env : Collaborators) (w : CLanguageInvokerThread) :
    Option CLanguageInvokerThread :=
  match w.m_cleanup_params with
  | none => some w
  | some p =>
    if w.m_reusable && p.NeedCleanup true then
      match w.m_invoker with
      | none => none
      | some inv =>
        let arguments := env.GetCleanupArgs p w.m_addon w.m_args none
        let r := env.Execute inv w.m_script arguments none
        some { w.emit (Event.Execute w.m_script arguments false) with m_invoker := some r.1 }
    else some w

/-- How a run of `Process` ends. -/
inductive Outcome
  /-- `Process` returned; these calls of other threads were not consumed -/
  | exited (w : CLanguageInvokerThread) (rest : List Op)
  /-- the thread is blocked in the end-of-run wait -/
  | blocked (w : CLanguageInvokerThread)
  /-- a null pointer was dereferenced -/
  | fault
  /-- the iteration bound of the model was reached -/
  | outOfFuel (w : CLanguageInvokerThread)
  deriving DecidableEq, Repr

/-- From the end-of-run wait on: wait, then either go round the loop again
(`again`) or leave it and run the final statement. -/
def Process_resume (env : Collaborators)
    (again : CLanguageInvokerThread → List Op → Outcome)
    (w : CLanguageInvokerThread) (ops : List Op) : Outcome :=
  match wait env w ops with
  | WaitResult.blocked w1 => Outcome.blocked w1
  | WaitResult.woken w1 rest =>
    if w1.loopCondition then again w1 rest
    else
      match Process_final env w1 with
      | none => Outcome.fault
      | some w2 => Outcome.exited w2 rest

/-- The second half of the loop body, entered when `Execute` has returned: the
reusability check, the wait and the loop condition. -/
def Process_afterExecute (env : Collaborators)
    (again : CLanguageInvokerThread → List Op → Outcome)
    (w : CLanguageInvokerThread) (ops : List Op) : Outcome :=
  match w.Process_demote with
  | none => Outcome.fault
  | some w1 => Process_resume env again w1 ops

/-- The `do ... while` loop, at most `fuel` iterations; `ops` are the calls other
threads make while the worker waits. -/
def Process_loop (env : Collaborators) : Nat → CLanguageInvokerThread → List Op → Outcome
  | 0, w, _ => Outcome.outOfFuel w
  | fuel + 1, w, ops =>
    match Process_execute env w with
    | none => Outcome.fault
    | some w1 => Process_afterExecute env (Process_loop env fuel) w1 ops

/-- `Process`. -/
def Process (env : Collaborators) (fuel : Nat) (w : CLanguageInvokerThread) (ops : List Op) :
    Outcome :=
  if w.m_invoker.isNone then Outcome.exited w ops else Process_loop env fuel w ops

/-- The worker an outcome carries, if any. -/
def Outcome.worker : Outcome → Option CLanguageInvokerThread
  | Outcome.exited w _ => some w
  | Outcome.blocked w => some w
  | Outcome.fault => none
  | Outcome.outOfFuel w => some w

end CLanguageInvokerThread

/-! ### Concrete collaborators and workers used in examples -/

/-- An interpreter whose run always ends in the given state and that leaves the
cleanup slot as it found it; `GetCleanupArgs` puts a marker in front of the
arguments (`"cleanup"` for an ID batch, `"cleanup-all"` for the null pointer). -/
def interpreterEndingIn (final : InvokerState) : Collaborators :=
  { Execute := fun inv _ _ cleanup => ({ inv with m_state := final }, cleanup.join)
    Stop := fun inv _ => (true, inv)
    GetCleanupArgs := fun _ _ arguments ids =>
      match ids with
      | none => "cleanup-all" :: arguments
      | some _ => "cleanup" :: arguments }

/-- A reusable worker whose thread is alive and waiting after a clean run of
`"plugin.py"`, with one scheduled cleanup entry `42 ↦ 100`. -/
def waitingWorker : CLanguageInvokerThread :=
  { m_id := 1
    m_addon := some 7
    m_invoker := some { m_id := 1, m_state := InvokerStateScriptDone, m_addon := some 7,
                        hasHandler := true, impl := 0 }
    m_script := "plugin.py"
    m_args := ["a"]
    m_restart := false
    m_reusable := true
    m_cleanup_params := some { m_flags := 2, m_cleanup := false, m_cleanup_timeouts := [(42, 100)] }
    m_cleanup_ids := []
    m_last_check := 100
    m_bStop := false
    running := true
    trace := [] }

/-- A freshly constructed reusable worker: no thread yet, invoker uninitialized. -/
def idleWorker : CLanguageInvokerThread :=
  { m_id := 1
    m_addon := none
    m_invoker := some (ILanguageInvoker.new true)
    m_script := ""
    m_args := []
    m_restart := false
    m_reusable := true
    m_cleanup_params := none
    m_cleanup_ids := []
    m_last_check := 0
    m_bStop := false
    running := false
    trace := [] }

/-- The worker `idleWorker` after `execute("plugin.py", ["a"])` created its
thread and the run ended in `InvokerStateFailed`: `Process` has cleared the
reusability flag and returned, the OS thread has not finished yet. -/
def demotedWorker : CLanguageInvokerThread :=
  { idleWorker with
    m_invoker := some { m_id := 1, m_state := InvokerStateFailed, m_addon := none,
                        hasHandler := true, impl := 0 }
    m_script := "plugin.py"
    m_args := ["a"]
    m_reusable := false
    running := true
    trace := [Event.Create, Event.Execute "plugin.py" ["a"] true] }

/-! ## Theorems -/

open CLanguageInvokerThread

/-! ### The invocation state machine -/

theorem setState_state (i : ILanguageInvoker) (n : InvokerState) :
    (i.setState n).GetState = if i.GetState.val < n.val then n else i.GetState := by
  unfold ILanguageInvoker.setState ILanguageInvoker.GetState
  by_cases h : n.val ≤ i.m_state.val
  · simp [h, Nat.not_lt.mpr h]
  · simp [h, Nat.lt_of_not_le h]

theorem setState_le (i : ILanguageInvoker) (n : InvokerState) :
    i.GetState.val ≤ (i.setState n).GetState.val := by
  rw [setState_state]
  split
  · omega
  · exact Nat.le_refl _

theorem observed_ge (ns : List InvokerState) :
    ∀ (i : ILanguageInvoker), ∀ s ∈ i.observed ns, i.GetState.val ≤ s.val := by
  induction ns with
  | nil =>
    intro i s hs
    simp [ILanguageInvoker.observed] at hs
    simp [hs]
  | cons n ns ih =>
    intro i s hs
    simp only [ILanguageInvoker.observed, List.mem_cons] at hs
    rcases hs with h | h
    · simp [h]
    · exact Nat.le_trans (setState_le i n) (ih _ s h)

theorem observed_pairwise (ns : List InvokerState) :
    ∀ (i : ILanguageInvoker), (i.observed ns).Pairwise (fun a b => a.val ≤ b.val) := by
  induction ns with
  | nil => intro i; simp [ILanguageInvoker.observed]
  | cons n ns ih =>
    intro i
    simp only [ILanguageInvoker.observed, List.pairwise_cons]
    exact ⟨fun s hs => Nat.le_trans (setState_le i n) (observed_ge ns _ s hs), ih _⟩

theorem val_le_six (s : InvokerState) : s.val ≤ 6 := by
  cases s <;> simp [InvokerState.val]

theorem val_six (s : InvokerState) (h : 6 ≤ s.val) : s = InvokerStateFailed := by
  cases s <;> simp [InvokerState.val] at h ⊢

/-- C1: `setState(n)` moves to `n` exactly when `n` is strictly greater than the
current state and otherwise changes nothing; so the states observed along any
sequence of `setState` calls are non-decreasing, and from `Failed` every observed
state is `Failed`. -/
theorem C1_setState_monotonic (i : ILanguageInvoker) (n : InvokerState)
    (ns : List InvokerState) :
    i.setState n = { i with m_state := if i.GetState.val < n.val then n else i.GetState } ∧
    (i.observed ns).Pairwise (fun a b => a.val ≤ b.val) ∧
    (∀ s ∈ ({ i with m_state := InvokerStateFailed } : ILanguageInvoker).observed ns,
      s = InvokerStateFailed) := by
  refine ⟨?_, observed_pairwise ns i, ?_⟩
  · unfold ILanguageInvoker.setState ILanguageInvoker.GetState
    by_cases h : n.val ≤ i.m_state.val
    · simp [h, Nat.not_lt.mpr h]
    · simp [h, Nat.lt_of_not_le h]
  · intro s hs
    have := observed_ge ns _ s hs
    exact val_six s (by simpa [ILanguageInvoker.GetState, InvokerState.val] using this)

/-! ### The cleanup scheduler -/

theorem collectDue_eq (cur : Int) (m : TimeoutMap) :
    ∀ ids : List Int, ICleanupParams.collectDue cur m ids =
      ids ++ (m.filter (fun it => decide (it.2 ≤ cur))).map Prod.fst := by
  induction m with
  | nil => intro ids; simp [ICleanupParams.collectDue]
  | cons it rest ih =>
    intro ids
    simp only [ICleanupParams.collectDue]
    rw [ih]
    by_cases h : it.2 ≤ cur
    · simp [h, List.filter_cons]
    · simp [h, List.filter_cons]

theorem eraseAll_eq (ids : List Int) :
    ∀ m : TimeoutMap, ICleanupParams.eraseAll ids m = m.filter (fun it => decide (it.1 ∉ ids)) := by
  induction ids with
  | nil => intro m; simp [ICleanupParams.eraseAll]
  | cons id rest ih =>
    intro m
    simp only [ICleanupParams.eraseAll]
    rw [ih, TimeoutMap.erase, List.filter_filter]
    apply List.filter_congr
    intro it _
    simp [List.mem_cons, not_or, Bool.and_comm]

theorem mem_eraseAll (ids : List Int) (m : TimeoutMap) (it : Int × Int) :
    it ∈ ICleanupParams.eraseAll ids m ↔ it ∈ m ∧ it.1 ∉ ids := by
  rw [eraseAll_eq]
  simp [List.mem_filter]

theorem WF_unique (m : TimeoutMap) (hwf : m.WF) (k e1 e2 : Int)
    (h1 : (k, e1) ∈ m) (h2 : (k, e2) ∈ m) : e1 = e2 := by
  induction m with
  | nil => simp at h1
  | cons it rest ih =>
    unfold TimeoutMap.WF at hwf
    simp only [List.map_cons, List.pairwise_cons] at hwf
    obtain ⟨hlt, hrest⟩ := hwf
    simp only [List.mem_cons] at h1 h2
    rcases h1 with h1 | h1 <;> rcases h2 with h2 | h2
    · rw [← h1] at h2; exact (Prod.mk.inj h2).2.symm ▸ rfl
    · have := hlt k (List.mem_map.mpr ⟨(k, e2), h2, rfl⟩)
      rw [← h1] at this
      exact absurd this (lt_irrefl _)
    · have := hlt k (List.mem_map.mpr ⟨(k, e1), h1, rfl⟩)
      rw [← h2] at this
      exact absurd this (lt_irrefl _)
    · exact ih hrest h1 h2

theorem WF_filter (m : TimeoutMap) (hwf : m.WF) (f : Int × Int → Bool) :
    TimeoutMap.WF (m.filter f) := by
  unfold TimeoutMap.WF at hwf ⊢
  exact (List.Pairwise.sublist ((List.filter_sublist m).map Prod.fst) hwf)

/-- The flags word agrees with the table and the immediate flag. -/
theorem update_flags_fresh (p : ICleanupParams) : p.update_flags.FlagsFresh := by
  unfold ICleanupParams.FlagsFresh ICleanupParams.update_flags TimeoutMap.empty
  cases p.m_cleanup_timeouts <;> simp

theorem GetCleanupIDs_fresh (p : ICleanupParams) (cur : Int) (ids : List Int)
    (h : p.FlagsFresh) : (p.GetCleanupIDs cur ids).2.2.FlagsFresh := by
  unfold ICleanupParams.GetCleanupIDs
  simp only
  split
  · exact h
  · exact update_flags_fresh _

theorem afterCalls_fresh (calls : List (Int × List Int)) :
    ∀ p : ICleanupParams, p.FlagsFresh → (p.afterCalls calls).FlagsFresh := by
  induction calls with
  | nil => intro p h; exact h
  | cons c cs ih =>
    intro p h
    exact ih _ (GetCleanupIDs_fresh p c.1 c.2 h)

theorem fresh_NeedCleanup (p : ICleanupParams) (h : p.FlagsFresh) :
    (p.NeedCleanup false = true ↔ p.m_cleanup_timeouts ≠ []) ∧
    (p.NeedCleanup true = true ↔ (p.NeedCleanup false = true ∨ p.m_cleanup = true)) ∧
    ((p.m_flags != 0) = p.NeedCleanup true) := by
  unfold ICleanupParams.FlagsFresh at h
  unfold ICleanupParams.NeedCleanup
  rw [h]
  cases p.m_cleanup_timeouts <;> cases p.m_cleanup <;> simp

/-- C2, as stated, fails: with the table `{7 ↦ 100}`, `now = 5` and an output list
that already holds `7`, the call returns `true`, the list still holds `7`, and
entry `7` (expiry `100 > 5`) is erased although it was not due. -/
theorem C2_counterexample_preloaded_ids :
    TimeoutMap.WF [(7, 100)] ∧
    (ICleanupParams.mk 2 false [(7, 100)]).GetCleanupIDs 5 [7] =
      (true, [7], ICleanupParams.mk 0 false []) ∧
    ¬ (∀ id ∈ ((ICleanupParams.mk 2 false [(7, 100)]).GetCleanupIDs 5 [7]).2.1,
        ∃ e, (id, e) ∈ (ICleanupParams.mk 2 false [(7, 100)]).m_cleanup_timeouts ∧ e ≤ 5) := by
  refine ⟨by decide, by decide, ?_⟩
  intro h
  obtain ⟨e, hmem, hle⟩ := h 7 (by decide)
  simp at hmem
  omega

/-- C2 (amended): after `GetCleanupIDs(now, ids)` the output list is the list on
entry followed by the due keys, so every ID in it was either already in the list
on entry or had an expiry `<= now` in the table before the call; and no ID in the
list is a key of the table after the call. -/
theorem C2_GetCleanupIDs_due_or_preloaded (p : ICleanupParams) (now : Int) (ids : List Int) :
    (p.GetCleanupIDs now ids).2.1 =
      ids ++ (p.m_cleanup_timeouts.filter (fun it => decide (it.2 ≤ now))).map Prod.fst ∧
    (∀ id ∈ (p.GetCleanupIDs now ids).2.1,
      id ∈ ids ∨ ∃ e, (id, e) ∈ p.m_cleanup_timeouts ∧ e ≤ now) ∧
    (∀ id ∈ (p.GetCleanupIDs now ids).2.1,
      ∀ e, (id, e) ∉ (p.GetCleanupIDs now ids).2.2.m_cleanup_timeouts) := by
  have hids : (p.GetCleanupIDs now ids).2.1 =
      ids ++ (p.m_cleanup_timeouts.filter (fun it => decide (it.2 ≤ now))).map Prod.fst := by
    unfold ICleanupParams.GetCleanupIDs
    simp only
    split <;> exact collectDue_eq now _ ids
  refine ⟨hids, ?_, ?_⟩
  · intro id hid
    rw [hids, List.mem_append] at hid
    rcases hid with h | h
    · exact Or.inl h
    · right
      obtain ⟨it, hit, rfl⟩ := List.mem_map.mp h
      rw [List.mem_filter] at hit
      exact ⟨it.2, hit.1, by simpa using hit.2⟩
  · intro id hid e hmem
    unfold ICleanupParams.GetCleanupIDs at hid hmem
    simp only at hid hmem
    split at hmem
    · rename_i hempty
      rw [if_pos hempty] at hid
      rw [List.isEmpty_iff.mp hempty] at hid
      simp at hid
    · rename_i hne
      rw [if_neg hne] at hid
      simp only [ICleanupParams.update_flags] at hmem
      rw [mem_eraseAll] at hmem
      exact hmem.2 hid

/-- C3: called with an empty output list on a well-formed table, `GetCleanupIDs`
returns exactly the keys with expiry `<= now`, in ascending key order and each
once; the table afterwards is exactly the entries with expiry `> now`; the
immediate flag is untouched; the result is `true` iff some entry was due, and
when it is `false` the scheduler (table and flags) is unchanged. -/
theorem C3_GetCleanupIDs_partition (p : ICleanupParams) (now : Int)
    (hwf : p.m_cleanup_timeouts.WF) :
    (p.GetCleanupIDs now []).2.1 =
      (p.m_cleanup_timeouts.filter (fun it => decide (it.2 ≤ now))).map Prod.fst ∧
    (p.GetCleanupIDs now []).2.1.Pairwise (fun a b => a < b) ∧
    (∀ id, id ∈ (p.GetCleanupIDs now []).2.1 ↔ ∃ e, (id, e) ∈ p.m_cleanup_timeouts ∧ e ≤ now) ∧
    (p.GetCleanupIDs now []).2.2.m_cleanup_timeouts =
      p.m_cleanup_timeouts.filter (fun it => decide (now < it.2)) ∧
    (p.GetCleanupIDs now []).2.2.m_cleanup = p.m_cleanup ∧
    ((p.GetCleanupIDs now []).1 = true ↔ ∃ it ∈ p.m_cleanup_timeouts, it.2 ≤ now) ∧
    ((p.GetCleanupIDs now []).1 = false → (p.GetCleanupIDs now []).2.2 = p) := by
  have hcol : ICleanupParams.collectDue now p.m_cleanup_timeouts [] =
      (p.m_cleanup_timeouts.filter (fun it => decide (it.2 ≤ now))).map Prod.fst := by
    rw [collectDue_eq]; simp
  have hids : (p.GetCleanupIDs now []).2.1 =
      (p.m_cleanup_timeouts.filter (fun it => decide (it.2 ≤ now))).map Prod.fst := by
    unfold ICleanupParams.GetCleanupIDs
    simp only
    split <;> exact hcol
  have hmem : ∀ id, id ∈ (p.GetCleanupIDs now []).2.1 ↔
      ∃ e, (id, e) ∈ p.m_cleanup_timeouts ∧ e ≤ now := by
    intro id
    rw [hids, List.mem_map]
    constructor
    · rintro ⟨it, hit, rfl⟩
      rw [List.mem_filter] at hit
      exact ⟨it.2, hit.1, by simpa using hit.2⟩
    · rintro ⟨e, he, hle⟩
      exact ⟨(id, e), List.mem_filter.mpr ⟨he, by simpa using hle⟩, rfl⟩
  have hkey : ∀ it ∈ p.m_cleanup_timeouts,
      (it.1 ∉ (p.m_cleanup_timeouts.filter (fun it => decide (it.2 ≤ now))).map Prod.fst ↔
        now < it.2) := by
    intro it hit
    constructor
    · intro hn
      by_contra hle
      exact hn (List.mem_map.mpr ⟨it, List.mem_filter.mpr ⟨hit, by simpa using not_lt.mp hle⟩, rfl⟩)
    · intro hlt hin
      obtain ⟨it2, hit2, hk⟩ := List.mem_map.mp hin
      rw [List.mem_filter] at hit2
      have h2 : (it.1, it2.2) ∈ p.m_cleanup_timeouts := by
        rw [← hk]; exact hit2.1
      have := WF_unique _ hwf it.1 it.2 it2.2 hit h2
      have hle : it2.2 ≤ now := by simpa using hit2.2
      omega
  refine ⟨hids, ?_, hmem, ?_, ?_, ?_, ?_⟩
  · rw [hids]
    exact WF_filter _ hwf _
  · unfold ICleanupParams.GetCleanupIDs
    simp only
    rw [hcol]
    split
    · rename_i hempty
      have hnil := List.isEmpty_iff.mp hempty
      symm
      rw [List.filter_eq_self]
      intro it hit
      have := (hkey it hit).mp (by rw [hnil]; simp)
      simpa using this
    · simp only [ICleanupParams.update_flags]
      rw [eraseAll_eq]
      apply List.filter_congr
      intro it hit
      have := hkey it hit
      by_cases hlt : now < it.2
      · simp [hlt, this.mpr hlt]
      · have hin : ¬ it.1 ∉ _ := fun hn => hlt (this.mp hn)
        rw [decide_eq_false hlt, decide_eq_false hin]
  · unfold ICleanupParams.GetCleanupIDs
    simp only
    split <;> rfl
  · have hres : ((p.GetCleanupIDs now []).1 = true ↔ (p.GetCleanupIDs now []).2.1 ≠ []) := by
      unfold ICleanupParams.GetCleanupIDs
      simp only
      split
      · rename_i hempty
        simp [List.isEmpty_iff.mp hempty]
      · rename_i hne
        simp only [true_iff]
        intro h
        exact hne (List.isEmpty_iff.mpr h)
    rw [hres]
    constructor
    · intro hne
      obtain ⟨id, hid⟩ := List.exists_mem_of_ne_nil _ hne
      obtain ⟨e, he, hle⟩ := (hmem id).mp hid
      exact ⟨(id, e), he, hle⟩
    · rintro ⟨it, hit, hle⟩ hnil
      have := (hmem it.1).mpr ⟨it.2, hit, hle⟩
      rw [hnil] at this
      simp at this
  · unfold ICleanupParams.GetCleanupIDs
    simp only
    split
    · intro _; rfl
    · intro h; simp at h

/-- Witness for C3: table `{1 ↦ 10, 2 ↦ 50, 3 ↦ 20}` at `now = 20`. -/
theorem C3_GetCleanupIDs_partition_witness :
    TimeoutMap.WF [(1, 10), (2, 50), (3, 20)] ∧
    ((ICleanupParams.mk 2 false [(1, 10), (2, 50), (3, 20)]).GetCleanupIDs 20 []).2.1 = [1, 3] ∧
    ((ICleanupParams.mk 2 false [(1, 10), (2, 50), (3, 20)]).GetCleanupIDs 20 []).2.2.m_cleanup_timeouts
      = [(2, 50)] := by
  have h := C3_GetCleanupIDs_partition (ICleanupParams.mk 2 false [(1, 10), (2, 50), (3, 20)]) 20
    (by decide)
  exact ⟨by decide, h.1.trans (by decide), h.2.2.2.1.trans (by decide)⟩

/-- C4: after one `Load` (with any parser `load`) and any number of
`GetCleanupIDs` calls, `m_flags` is `(table non-empty ? 2 : 0) | (immediate ? 1 : 0)`;
so `NeedCleanup(false)` holds iff the table is non-empty, `NeedCleanup(true)`
holds iff `NeedCleanup(false)` holds or the immediate flag is set, and the value
`Load` returns is `NeedCleanup(true)` right after it. -/
theorem C4_flags_never_stale {δ : Type} (load : δ → ICleanupParams → ICleanupParams)
    (p0 : ICleanupParams) (data : δ) (calls : List (Int × List Int)) :
    ((ICleanupParams.Load load p0 data).2.afterCalls calls).m_flags =
      ((if ((ICleanupParams.Load load p0 data).2.afterCalls calls).m_cleanup_timeouts = []
          then 0 else 2) |||
       (if ((ICleanupParams.Load load p0 data).2.afterCalls calls).m_cleanup then 1 else 0)) ∧
    (((ICleanupParams.Load load p0 data).2.afterCalls calls).NeedCleanup false = true ↔
      ((ICleanupParams.Load load p0 data).2.afterCalls calls).m_cleanup_timeouts ≠ []) ∧
    (((ICleanupParams.Load load p0 data).2.afterCalls calls).NeedCleanup true = true ↔
      (((ICleanupParams.Load load p0 data).2.afterCalls calls).NeedCleanup false = true ∨
       ((ICleanupParams.Load load p0 data).2.afterCalls calls).m_cleanup = true)) ∧
    (ICleanupParams.Load load p0 data).1 = (ICleanupParams.Load load p0 data).2.NeedCleanup true := by
  have h0 : (ICleanupParams.Load load p0 data).2.FlagsFresh := update_flags_fresh _
  have h := afterCalls_fresh calls _ h0
  have hn := fresh_NeedCleanup _ h
  refine ⟨h, hn.1, hn.2.1, ?_⟩
  exact (fresh_NeedCleanup _ h0).2.2

/-! ### The worker thread -/

theorem execute_reusable (w : CLanguageInvokerThread) (script : String) (arguments : List String) :
    (w.execute script arguments).2.m_reusable = w.m_reusable := by
  unfold CLanguageInvokerThread.execute
  simp only
  split
  · rfl
  · split <;> rfl

theorem Cleanup_reusable (w : CLanguageInvokerThread) (ids : List Int) :
    (w.Cleanup ids).m_reusable = w.m_reusable := by
  unfold CLanguageInvokerThread.Cleanup
  split <;> rfl

theorem GetCleanupIds_reusable (w : CLanguageInvokerThread) (cur : Int) (ids : List Int) :
    (w.GetCleanupIds cur ids).2.2.m_reusable = w.m_reusable := by
  unfold CLanguageInvokerThread.GetCleanupIds
  split
  · rfl
  · simp only
    split <;> rfl

theorem stop_reusable (env : Collaborators) (w : CLanguageInvokerThread) (wait : Bool) :
    (w.stop env wait).2.m_reusable = w.m_reusable := by
  unfold CLanguageInvokerThread.stop
  split
  · rfl
  · split
    · rfl
    · simp only
      split <;> rfl

theorem OnStartup_reusable (w : CLanguageInvokerThread) :
    w.OnStartup.m_reusable = w.m_reusable := by
  unfold CLanguageInvokerThread.OnStartup
  split <;> rfl

theorem OnExit_reusable (w : CLanguageInvokerThread) :
    w.OnExit.m_reusable = w.m_reusable := by
  unfold CLanguageInvokerThread.OnExit
  split
  · rfl
  · simp only
    split <;> rfl

theorem apply_reusable (env : Collaborators) (op : Op) (w : CLanguageInvokerThread) :
    (op.apply env w).m_reusable = w.m_reusable := by
  cases op with
  | execute script arguments => exact execute_reusable w script arguments
  | Cleanup ids => exact Cleanup_reusable w ids
  | Release => rfl
  | GetCleanupIds cur ids => exact GetCleanupIds_reusable w cur ids
  | stop wait => exact stop_reusable env w wait
  | OnStartup => exact OnStartup_reusable w
  | OnExit => exact OnExit_reusable w

theorem Process_execute_reusable (env : Collaborators) (w w1 : CLanguageInvokerThread)
    (h : Process_execute env w = some w1) : w1.m_reusable = w.m_reusable := by
  unfold CLanguageInvokerThread.Process_execute at h
  split at h
  · simp at h
  · simp only at h
    split at h
    · cases h; rfl
    · split at h
      · simp at h
      · cases h; rfl

theorem Process_final_reusable (env : Collaborators) (w w1 : CLanguageInvokerThread)
    (h : Process_final env w = some w1) : w1.m_reusable = w.m_reusable := by
  unfold CLanguageInvokerThread.Process_final at h
  split at h
  · cases h; rfl
  · split at h
    · split at h
      · cases h
      · cases h; rfl
    · cases h; rfl

theorem Process_demote_reusable (w w1 : CLanguageInvokerThread)
    (h : w.Process_demote = some w1) (h1 : w1.m_reusable = true) : w.m_reusable = true := by
  unfold CLanguageInvokerThread.Process_demote at h
  split at h
  · cases h
  · split at h
    · cases h; simp at h1
    · cases h; exact h1

theorem wait_woken_of_predicate (env : Collaborators) (w : CLanguageInvokerThread)
    (ops : List Op) (h : w.waitPredicate = true) : wait env w ops = WaitResult.woken w ops := by
  cases ops <;> simp [CLanguageInvokerThread.wait, h]

theorem wait_reusable (env : Collaborators) (ops : List Op) :
    ∀ w : CLanguageInvokerThread,
      (∀ w1 rest, wait env w ops = WaitResult.woken w1 rest → w1.m_reusable = w.m_reusable) ∧
      (∀ w1, wait env w ops = WaitResult.blocked w1 → w1.m_reusable = w.m_reusable) := by
  induction ops with
  | nil =>
    intro w
    constructor
    · intro w1 rest h
      simp only [CLanguageInvokerThread.wait] at h
      split at h
      · cases h; rfl
      · cases h
    · intro w1 h
      simp only [CLanguageInvokerThread.wait] at h
      split at h
      · cases h
      · cases h; rfl
  | cons op rest ih =>
    intro w
    constructor
    · intro w1 rest1 h
      simp only [CLanguageInvokerThread.wait] at h
      split at h
      · cases h; rfl
      · rw [(ih _).1 w1 rest1 h, apply_reusable]
    · intro w1 h
      simp only [CLanguageInvokerThread.wait] at h
      split at h
      · cases h
      · rw [(ih _).2 w1 h, apply_reusable]

theorem Process_loop_reusable (env : Collaborators) (fuel : Nat) :
    ∀ (w : CLanguageInvokerThread) (ops : List Op) (w1 : CLanguageInvokerThread),
      (Process_loop env fuel w ops).worker = some w1 → w1.m_reusable = true →
      w.m_reusable = true := by
  induction fuel with
  | zero =>
    intro w ops w1 h h1
    simp only [CLanguageInvokerThread.Process_loop, Outcome.worker] at h
    cases h; exact h1
  | succ fuel ih =>
    intro w ops w1 h h1
    simp only [CLanguageInvokerThread.Process_loop] at h
    split at h
    · simp [Outcome.worker] at h
    · rename_i w2 hexec
      rw [← Process_execute_reusable env w w2 hexec]
      simp only [CLanguageInvokerThread.Process_afterExecute] at h
      split at h
      · simp [Outcome.worker] at h
      · rename_i wd hdem
        apply Process_demote_reusable w2 wd hdem
        simp only [CLanguageInvokerThread.Process_resume] at h
        split at h
        · rename_i w3 hwait
          simp only [Outcome.worker] at h
          cases h
          rw [← (wait_reusable env ops _).2 _ hwait]; exact h1
        · rename_i w3 rest hwait
          rw [← (wait_reusable env ops _).1 _ _ hwait]
          split at h
          · exact ih _ _ _ h h1
          · split at h
            · simp [Outcome.worker] at h
            · rename_i wf hfin
              simp only [Outcome.worker] at h
              cases h
              rw [← Process_final_reusable env w3 _ hfin]; exact h1

/-- C5: two successive `GetCleanupIds` calls that read the same time value: the
second returns `false`, leaves its output list as it was and leaves the worker
(so the entry table, and the trace: no scan) unchanged.  The scheduler's
`GetCleanupIDs` is called exactly when a scheduler is configured and the reading
differs from the stored `m_last_check`. -/
theorem C5_GetCleanupIds_rate_limited (w : CLanguageInvokerThread) (cur : Int)
    (ids1 ids2 : List Int) :
    (w.GetCleanupIds cur ids1).2.2.GetCleanupIds cur ids2 =
      (false, ids2, (w.GetCleanupIds cur ids1).2.2) ∧
    (w.GetCleanupIds cur ids1).2.2.trace =
      (if w.m_cleanup_params.isSome ∧ cur ≠ w.m_last_check
        then w.trace ++ [Event.GetCleanupIDs cur] else w.trace) ∧
    (cur = w.m_last_check →
      (w.GetCleanupIds cur ids1).1 = false ∧ (w.GetCleanupIds cur ids1).2.1 = ids1 ∧
      (w.GetCleanupIds cur ids1).2.2.m_cleanup_params = w.m_cleanup_params) := by
  obtain ⟨id, addon, inv, script, args, restart, reusable, params, cids, last, bstop, running,
    trace⟩ := w
  cases params with
  | none => simp [CLanguageInvokerThread.GetCleanupIds]
  | some p =>
    by_cases h : cur = last
    · simp [CLanguageInvokerThread.GetCleanupIds, h]
    · simp [CLanguageInvokerThread.GetCleanupIds, h, CLanguageInvokerThread.emit]

/-- Witness for C5: `waitingWorker` last checked at time 100 and holds the entry
`42 ↦ 100`, due at 100; polling at 100 finds nothing and the entry stays. -/
theorem C5_GetCleanupIds_rate_limited_witness :
    (waitingWorker.GetCleanupIds 100 []).2.2.m_cleanup_params =
      some (ICleanupParams.mk 2 false [(42, 100)]) ∧
    (waitingWorker.GetCleanupIds 100 []).2.2.GetCleanupIds 100 [] =
      (false, [], (waitingWorker.GetCleanupIds 100 []).2.2) :=
  ⟨by decide, (C5_GetCleanupIds_rate_limited waitingWorker 100 [] []).1⟩

/-- C6: `Cleanup(ids)` changes nothing when the thread is not reusable, or has no
invoker, or has no cleanup scheduler, or its OS thread is not alive, or `ids` is
empty. -/
theorem C6_Cleanup_guarded (w : CLanguageInvokerThread) (ids : List Int)
    (h : w.m_reusable = false ∨ w.m_invoker = none ∨ w.m_cleanup_params = none ∨
      w.IsRunning = false ∨ ids = []) :
    w.Cleanup ids = w := by
  have hguard : (!w.m_reusable || w.m_invoker.isNone || w.m_cleanup_params.isNone ||
      !w.IsRunning || ids.isEmpty) = true := by
    rcases h with h | h | h | h | h <;> simp [h]
  unfold CLanguageInvokerThread.Cleanup
  rw [if_pos hguard]

/-- Witness for C6: `Cleanup([])` on the otherwise eligible `waitingWorker`. -/
theorem C6_Cleanup_guarded_witness :
    (waitingWorker.m_reusable = true ∧ waitingWorker.m_invoker.isSome = true ∧
      waitingWorker.m_cleanup_params.isSome = true ∧ waitingWorker.IsRunning = true) ∧
    waitingWorker.Cleanup [] = waitingWorker :=
  ⟨by decide, C6_Cleanup_guarded waitingWorker [] (Or.inr (Or.inr (Or.inr (Or.inr rfl))))⟩

theorem Process_final_not_reusable (env : Collaborators) (w : CLanguageInvokerThread)
    (h : w.m_reusable = false) : Process_final env w = some w := by
  unfold CLanguageInvokerThread.Process_final
  split
  · rfl
  · simp [h]

theorem afterExecute_not_done (env : Collaborators)
    (again : CLanguageInvokerThread → List Op → Outcome)
    (w : CLanguageInvokerThread) (inv : ILanguageInvoker) (ops : List Op)
    (hinv : w.m_invoker = some inv) (h : inv.GetState ≠ InvokerStateScriptDone) :
    w.Process_demote = some { w with m_reusable := false } ∧
    Process_afterExecute env again w ops = Outcome.exited { w with m_reusable := false } ops := by
  have hdem : w.Process_demote = some { w with m_reusable := false } := by
    simp [CLanguageInvokerThread.Process_demote, hinv, h]
  refine ⟨hdem, ?_⟩
  have hp : ({ w with m_reusable := false } : CLanguageInvokerThread).waitPredicate = true := by
    simp [CLanguageInvokerThread.waitPredicate]
  have hl : ({ w with m_reusable := false } : CLanguageInvokerThread).loopCondition = false := by
    simp [CLanguageInvokerThread.loopCondition]
  have hf := Process_final_not_reusable env { w with m_reusable := false } rfl
  simp only [CLanguageInvokerThread.Process_afterExecute, hdem,
    CLanguageInvokerThread.Process_resume, wait_woken_of_predicate env _ ops hp, hl, hf]
  simp

/-- C7: when `Execute` has returned with the invoker not at `ScriptDone`, the
loop clears `m_reusable`, the wait returns at once (no call of another thread is
consumed), and `Process` returns without going round the loop again (`again` is
not used) and without the final cleanup execution (worker and trace are those at
the end of the execution, but for the flag); at `ScriptDone` the worker is left
as it was.  No operation writes `m_reusable`, and a run of `Process` started with
the flag cleared never ends with it set. -/
theorem C7_reusability_demotion (env : Collaborators)
    (again : CLanguageInvokerThread → List Op → Outcome)
    (w : CLanguageInvokerThread) (inv : ILanguageInvoker) (ops : List Op)
    (hinv : w.m_invoker = some inv) :
    (inv.GetState ≠ InvokerStateScriptDone →
      w.Process_demote = some { w with m_reusable := false } ∧
      wait env { w with m_reusable := false } ops =
        WaitResult.woken { w with m_reusable := false } ops ∧
      Process_afterExecute env again w ops = Outcome.exited { w with m_reusable := false } ops) ∧
    (inv.GetState = InvokerStateScriptDone → w.Process_demote = some w) ∧
    (∀ (w0 : CLanguageInvokerThread) (fuel : Nat), Process_execute env w0 = some w →
      inv.GetState ≠ InvokerStateScriptDone →
      Process_loop env (fuel + 1) w0 ops = Outcome.exited { w with m_reusable := false } ops) ∧
    (∀ op : Op, (op.apply env w).m_reusable = w.m_reusable) ∧
    (∀ (fuel : Nat) (w1 : CLanguageInvokerThread), w.m_reusable = false →
      (Process env fuel w ops).worker = some w1 → w1.m_reusable = false) := by
  refine ⟨fun h => ⟨(afterExecute_not_done env again w inv ops hinv h).1, ?_,
    (afterExecute_not_done env again w inv ops hinv h).2⟩, ?_, ?_,
    fun op => apply_reusable env op w, ?_⟩
  · exact wait_woken_of_predicate env _ ops (by simp [CLanguageInvokerThread.waitPredicate])
  · intro h
    simp [CLanguageInvokerThread.Process_demote, hinv, h]
  · intro w0 fuel hexec h
    simp only [CLanguageInvokerThread.Process_loop, hexec]
    exact (afterExecute_not_done env _ w inv ops hinv h).2
  · intro fuel w1 hre hw
    unfold CLanguageInvokerThread.Process at hw
    split at hw
    · simp only [Outcome.worker] at hw
      cases hw
      exact hre
    · cases h1 : w1.m_reusable with
      | false => rfl
      | true =>
        have := Process_loop_reusable env fuel w ops w1 hw h1
        rw [hre] at this
        cases this

/-- Witness for C7: `idleWorker` (invoker at `Uninitialized`) at the point where
`Execute` has returned, with a pending `Release` from another thread. -/
theorem C7_reusability_demotion_witness :
    idleWorker.GetState ≠ InvokerStateScriptDone ∧
    Process_afterExecute (interpreterEndingIn InvokerStateFailed)
      (Process_loop (interpreterEndingIn InvokerStateFailed) 3) idleWorker [Op.Release] =
      Outcome.exited { idleWorker with m_reusable := false } [Op.Release] :=
  ⟨by decide,
   ((C7_reusability_demotion (interpreterEndingIn InvokerStateFailed)
      (Process_loop (interpreterEndingIn InvokerStateFailed) 3) idleWorker
      (ILanguageInvoker.new true) [Op.Release] rfl).1 (by decide)).2.2⟩

/-- C8, as stated, fails: `execute("plugin.py", ["a"])` on `idleWorker` creates
the thread; its run (`OnStartup`, then `Process`) ends in `Failed` and leaves
`demotedWorker` (reusability flag cleared, OS thread still alive); `execute` on
it with a non-empty script returns `true`, sets the restart flag and only
notifies the condition variable: no thread is created. -/
theorem C8_counterexample_thread_still_alive :
    Process (interpreterEndingIn InvokerStateFailed) 1
      (idleWorker.execute "plugin.py" ["a"]).2.OnStartup [] = Outcome.exited demotedWorker [] ∧
    demotedWorker.GetState ≠ InvokerStateScriptDone ∧
    demotedWorker.m_reusable = false ∧
    demotedWorker.m_restart = false ∧
    (demotedWorker.execute "other.py" []).1 = true ∧
    (demotedWorker.execute "other.py" []).2.m_restart = true ∧
    (demotedWorker.execute "other.py" []).2.trace = demotedWorker.trace ++ [Event.notify_one] ∧
    (demotedWorker.execute "other.py" []).2.trace.count Event.Create =
      demotedWorker.trace.count Event.Create := by
  decide

/-- C8 (amended): on a worker whose reusability flag is cleared, with an invoker
and a non-empty script, `execute` spawns a new thread (`Create`, restart flag
untouched) when the OS thread is no longer alive, and when it is still alive sets
the restart flag and creates nothing. -/
theorem C8_execute_spawns_when_thread_ended (w : CLanguageInvokerThread) (script : String)
    (arguments : List String) (hre : w.m_reusable = false)
    (hinv : w.m_invoker.isSome = true) (hscript : script.isEmpty = false) :
    (w.IsRunning = false →
      (w.execute script arguments).2.trace = w.trace ++ [Event.Create] ∧
      (w.execute script arguments).2.m_restart = w.m_restart ∧
      (w.execute script arguments).2.IsRunning = true) ∧
    (w.IsRunning = true →
      (w.execute script arguments).2.trace = w.trace ++ [Event.notify_one] ∧
      (w.execute script arguments).2.m_restart = true) ∧
    (w.execute script arguments).2.m_reusable = false := by
  have hnone : w.m_invoker.isNone = false := by
    cases h : w.m_invoker with
    | none => simp [h] at hinv
    | some _ => rfl
  refine ⟨?_, ?_, ?_⟩
  · intro hrun
    have hrun2 : w.running = false := hrun
    simp [CLanguageInvokerThread.execute, hnone, hscript, CLanguageInvokerThread.IsRunning,
      hrun2, CLanguageInvokerThread.Create, CLanguageInvokerThread.emit]
  · intro hrun
    have hrun2 : w.running = true := hrun
    simp [CLanguageInvokerThread.execute, hnone, hscript, CLanguageInvokerThread.IsRunning,
      hrun2, CLanguageInvokerThread.emit]
  · rw [execute_reusable]; exact hre

/-- Witness for C8 (amended): `demotedWorker` once its OS thread has ended. -/
theorem C8_execute_spawns_when_thread_ended_witness :
    ({ demotedWorker with running := false } : CLanguageInvokerThread).m_reusable = false ∧
    (({ demotedWorker with running := false } : CLanguageInvokerThread).execute
        "other.py" []).2.trace =
      [Event.Create, Event.Execute "plugin.py" ["a"] true, Event.Create] :=
  ⟨rfl,
   ((C8_execute_spawns_when_thread_ended { demotedWorker with running := false } "other.py" []
      rfl rfl (by decide)).1 rfl).1⟩

/-- C9: on a worker that is alive, has an invoker and a scheduler and waits
(wait predicate false, so it is reusable and its last run ended at `ScriptDone`),
`Cleanup(ids)` with non-empty `ids` resets the invoker to `Uninitialized`, stores
`ids` and sets the restart flag; the wait then returns and the loop goes round;
that iteration clears the restart flag, calls `Execute` with
`GetCleanupArgs(m_addon, m_args, ids)` and no cleanup slot, and empties
`m_cleanup_ids`; if the invoker is then at `ScriptDone` the thread is back at the
wait, still reusable. -/
theorem C9_cleanup_restart (env : Collaborators) (w : CLanguageInvokerThread)
    (inv : ILanguageInvoker) (p : ICleanupParams) (ids : List Int) (rest : List Op) (fuel : Nat)
    (hinv : w.m_invoker = some inv)
    (hp : w.m_cleanup_params = some p) (hrun : w.IsRunning = true)
    (hwait : w.waitPredicate = false) (hids : ids ≠ []) :
    w.m_reusable = true ∧
    (w.Cleanup ids).GetState = InvokerStateUninitialized ∧
    (w.Cleanup ids).m_cleanup_ids = ids ∧
    (w.Cleanup ids).m_restart = true ∧
    wait env w (Op.Cleanup ids :: rest) = WaitResult.woken (w.Cleanup ids) rest ∧
    (w.Cleanup ids).loopCondition = true ∧
    ∃ w2, Process_execute env (w.Cleanup ids) = some w2 ∧
      w2.m_restart = false ∧
      w2.m_cleanup_ids = [] ∧
      w2.trace = (w.Cleanup ids).trace ++
        [Event.Execute w.m_script (env.GetCleanupArgs p w.m_addon w.m_args (some ids)) false] ∧
      w2.m_invoker = some (env.Execute inv.Reset w.m_script
        (env.GetCleanupArgs p w.m_addon w.m_args (some ids)) none).1 ∧
      w2.m_cleanup_params = some p ∧
      (w2.GetState = InvokerStateScriptDone →
        w2.m_reusable = true ∧
        Process_resume env (Process_loop env (fuel + 1)) w (Op.Cleanup ids :: rest) =
          Process_resume env (Process_loop env fuel) w2 rest ∧
        Process_resume env (Process_loop env (fuel + 1)) w [Op.Cleanup ids] =
          Outcome.blocked w2) := by
  obtain ⟨id, addon, minv, script, args, restart, reusable, params, cids, last, bstop, running,
    trace⟩ := w
  simp only [CLanguageInvokerThread.waitPredicate, Bool.or_eq_false_iff,
    Bool.not_eq_false'] at hwait
  obtain ⟨⟨hb, hr⟩, hre⟩ := hwait
  simp only at hinv hp hb hr hre
  simp only [CLanguageInvokerThread.IsRunning] at hrun
  subst hinv hp hb hr hre hrun
  have hne : ids.isEmpty = false := by
    cases ids with
    | nil => exact absurd rfl hids
    | cons _ _ => rfl
  have hC : CLanguageInvokerThread.Cleanup
      ⟨id, addon, some inv, script, args, false, true, some p, cids, last, false, true, trace⟩ ids =
      ⟨id, addon, some inv.Reset, script, args, true, true, some p, ids, last, false, true,
        trace ++ [Event.Log, Event.notify_one]⟩ := by
    simp [CLanguageInvokerThread.Cleanup, hne, CLanguageInvokerThread.IsRunning,
      CLanguageInvokerThread.emit]
  have hE : Process_execute env
      ⟨id, addon, some inv.Reset, script, args, true, true, some p, ids, last, false, true,
        trace ++ [Event.Log, Event.notify_one]⟩ =
      some ⟨id, addon,
        some (env.Execute inv.Reset script (env.GetCleanupArgs p addon args (some ids)) none).1,
        script, args, false, true, some p, [], last, false, true,
        (trace ++ [Event.Log, Event.notify_one]) ++
          [Event.Execute script (env.GetCleanupArgs p addon args (some ids)) false]⟩ := by
    simp [CLanguageInvokerThread.Process_execute, hne, CLanguageInvokerThread.emit]
  have hW : wait env
      ⟨id, addon, some inv, script, args, false, true, some p, cids, last, false, true, trace⟩
      (Op.Cleanup ids :: rest) =
      WaitResult.woken
        ⟨id, addon, some inv.Reset, script, args, true, true, some p, ids, last, false, true,
          trace ++ [Event.Log, Event.notify_one]⟩ rest := by
    simp only [CLanguageInvokerThread.wait, CLanguageInvokerThread.waitPredicate, Op.apply, hC]
    simp only [Bool.or_self, Bool.not_true, Bool.false_eq_true, if_false]
    exact wait_woken_of_predicate env _ rest (by simp [CLanguageInvokerThread.waitPredicate])
  rw [hC]
  refine ⟨rfl, rfl, rfl, rfl, hW, rfl, _, hE, rfl, rfl, rfl, rfl, rfl, ?_⟩
  intro hstate
  have hD : CLanguageInvokerThread.Process_demote
      ⟨id, addon,
        some (env.Execute inv.Reset script (env.GetCleanupArgs p addon args (some ids)) none).1,
        script, args, false, true, some p, [], last, false, true,
        (trace ++ [Event.Log, Event.notify_one]) ++
          [Event.Execute script (env.GetCleanupArgs p addon args (some ids)) false]⟩ =
      some ⟨id, addon,
        some (env.Execute inv.Reset script (env.GetCleanupArgs p addon args (some ids)) none).1,
        script, args, false, true, some p, [], last, false, true,
        (trace ++ [Event.Log, Event.notify_one]) ++
          [Event.Execute script (env.GetCleanupArgs p addon args (some ids)) false]⟩ := by
    have hstate1 : (env.Execute inv.Reset script
        (env.GetCleanupArgs p addon args (some ids)) none).1.GetState = InvokerStateScriptDone :=
      hstate
    simp only [CLanguageInvokerThread.Process_demote]
    rw [if_neg (not_not.mpr hstate1)]
  have hR : ∀ rest1 : List Op,
      Process_resume env (Process_loop env (fuel + 1))
        ⟨id, addon, some inv, script, args, false, true, some p, cids, last, false, true, trace⟩
        (Op.Cleanup ids :: rest1) =
      Process_resume env (Process_loop env fuel)
        ⟨id, addon,
          some (env.Execute inv.Reset script (env.GetCleanupArgs p addon args (some ids)) none).1,
          script, args, false, true, some p, [], last, false, true,
          (trace ++ [Event.Log, Event.notify_one]) ++
            [Event.Execute script (env.GetCleanupArgs p addon args (some ids)) false]⟩ rest1 := by
    intro rest1
    have hW1 : wait env
        ⟨id, addon, some inv, script, args, false, true, some p, cids, last, false, true, trace⟩
        (Op.Cleanup ids :: rest1) =
        WaitResult.woken
          ⟨id, addon, some inv.Reset, script, args, true, true, some p, ids, last, false, true,
            trace ++ [Event.Log, Event.notify_one]⟩ rest1 := by
      simp only [CLanguageInvokerThread.wait, CLanguageInvokerThread.waitPredicate, Op.apply, hC]
      simp only [Bool.or_self, Bool.not_true, Bool.false_eq_true, if_false]
      exact wait_woken_of_predicate env _ rest1 (by simp [CLanguageInvokerThread.waitPredicate])
    conv_lhs => unfold CLanguageInvokerThread.Process_resume
    rw [hW1]
    simp only [CLanguageInvokerThread.loopCondition, Bool.not_false, Bool.and_self, if_true,
      CLanguageInvokerThread.Process_loop, hE, CLanguageInvokerThread.Process_afterExecute, hD]
  refine ⟨rfl, hR rest, ?_⟩
  rw [hR []]
  simp [CLanguageInvokerThread.Process_resume, CLanguageInvokerThread.wait,
    CLanguageInvokerThread.waitPredicate]

/-- Witness for C9: `Cleanup([42])` on `waitingWorker`, the interpreter ending
every run at `ScriptDone`. -/
theorem C9_cleanup_restart_witness :
    (waitingWorker.GetState = InvokerStateScriptDone ∧ waitingWorker.IsRunning = true ∧
      waitingWorker.waitPredicate = false ∧ ([42] : List Int) ≠ []) ∧
    (waitingWorker.Cleanup [42]).GetState = InvokerStateUninitialized ∧
    (waitingWorker.Cleanup [42]).m_cleanup_ids = [42] ∧
    (waitingWorker.Cleanup [42]).m_restart = true ∧
    wait (interpreterEndingIn InvokerStateScriptDone) waitingWorker [Op.Cleanup [42]] =
      WaitResult.woken (waitingWorker.Cleanup [42]) [] :=
  have h := C9_cleanup_restart (interpreterEndingIn InvokerStateScriptDone) waitingWorker
    { m_id := 1, m_state := InvokerStateScriptDone, m_addon := some 7, hasHandler := true, impl := 0 }
    (ICleanupParams.mk 2 false [(42, 100)]) [42] [] 0 rfl rfl rfl rfl (by decide)
  ⟨by decide, h.2.1, h.2.2.1, h.2.2.2.1, h.2.2.2.2.1⟩

/-- C10: with an invoker and a non-empty script, `execute` returns `true` and
stores script and arguments; when the OS thread is alive it sets the restart flag
and notifies, creating no thread; when idle it creates the thread and leaves the
restart flag as it was; nothing else changes.  Without an invoker or with an
empty script it returns `false` and changes nothing. -/
theorem C10_execute_reuse (w : CLanguageInvokerThread) (script : String)
    (arguments : List String) :
    (w.m_invoker.isSome = true → script.isEmpty = false →
      (w.execute script arguments).1 = true ∧
      (w.execute script arguments).2.m_script = script ∧
      (w.execute script arguments).2.m_args = arguments ∧
      (w.IsRunning = true →
        (w.execute script arguments).2 =
          { w with m_script := script, m_args := arguments, m_restart := true,
                   trace := w.trace ++ [Event.notify_one] }) ∧
      (w.IsRunning = false →
        (w.execute script arguments).2 =
          { w with m_script := script, m_args := arguments, running := true,
                   trace := w.trace ++ [Event.Create] })) ∧
    ((w.m_invoker = none ∨ script.isEmpty = true) → w.execute script arguments = (false, w)) := by
  constructor
  · intro hinv hscript
    have hnone : w.m_invoker.isNone = false := by
      cases h : w.m_invoker with
      | none => simp [h] at hinv
      | some _ => rfl
    cases hrun : w.running with
    | true =>
      simp [CLanguageInvokerThread.execute, hnone, hscript, CLanguageInvokerThread.IsRunning,
        hrun, CLanguageInvokerThread.emit]
    | false =>
      simp [CLanguageInvokerThread.execute, hnone, hscript, CLanguageInvokerThread.IsRunning,
        hrun, CLanguageInvokerThread.Create, CLanguageInvokerThread.emit]
  · intro h
    rcases h with h | h
    · simp [CLanguageInvokerThread.execute, h]
    · simp [CLanguageInvokerThread.execute, h]

/-- Witness for C10: `execute("s1", [])` on `idleWorker` creates the thread; a
second `execute("s2", [])` on the result only sets the restart flag. -/
theorem C10_execute_reuse_witness :
    (idleWorker.m_invoker.isSome = true ∧ idleWorker.IsRunning = false) ∧
    (idleWorker.execute "s1" []).2 =
      { idleWorker with m_script := "s1", m_args := [], running := true,
                        trace := idleWorker.trace ++ [Event.Create] } ∧
    (((idleWorker.execute "s1" []).2.execute "s2" []).2.m_restart = true ∧
      ((idleWorker.execute "s1" []).2.execute "s2" []).2.trace = [Event.Create, Event.notify_one]) :=
  ⟨by decide,
   ((C10_execute_reuse idleWorker "s1" []).1 rfl (by decide)).2.2.2.2 rfl,
   by decide⟩

end Xbmc
